import Mathlib

/-!
Verification of the AI-Foundation federation layer.

This file gives a shallow embedding, in Lean 4, of the core data model and
operations of the repository:

* `src/src/hlc.rs` — hybrid logical clocks (`HlcTimestamp`, `tick`, `receive`);
* `src/src/crypto.rs` — signed federation events (`SignedEvent`, `sign`, `verify`);
* `src/src/federation.rs` — peer registry (`handle_registration`, `remove_peer`,
  `is_known_peer`, `list_peers`, `touch_peer`, dedup cache);
* `src/src/federation_sync.rs` — the push pipeline (`process_push`);
* `src/mobile/rust/deepnet-core/src/message.rs` — `VectorClock`;
* `src/mobile/rust/deepnet-core/src/sync.rs` — `SyncManager.process_incoming`.

Modelling conventions:
* Rust machine integers (`u64`, `u32`, `usize`, `u8`) are modelled as `Nat`.
  No operation in the modelled code relies on wrap-around behaviour.
* `HashMap` / `HashSet` are modelled as association lists / lists in insertion
  order; map equality is lookup-extensional equality, and theorems that need
  the `HashMap` no-duplicate-keys invariant take it as a hypothesis.
* Wall-clock reads (`SystemTime::now`) are threaded as explicit `now` numeric
  arguments; functions that in Rust mutate `&self` state take the state and
  return the updated state.
* SHA-256 (`sha2` crate) and Ed25519 (`ed25519_dalek` crate) are external
  library code, not part of this repository; they are modelled abstractly as a
  `CryptoModel` (a hash function and a signature-verification predicate), and
  their cryptographic properties appear as explicit hypotheses where a claim
  needs them.
-/

/-! ### Association-list maps (model of `std::collections::HashMap`) -/

/-- First value stored under key `k`, scanning left to right
(model of `HashMap::get`). -/
def alookup {κ β : Type} [DecidableEq κ] (k : κ) : List (κ × β) → Option β
  | [] => none
  | p :: rest => if p.1 = k then some p.2 else alookup k rest

/-- The keys of an association list. -/
def akeys {κ β : Type} (l : List (κ × β)) : List κ := l.map Prod.fst

/-- The `HashMap` invariant: every key occurs at most once. -/
def NodupKeys {κ β : Type} (l : List (κ × β)) : Prop := (akeys l).Nodup

/-- Model of `HashMap::insert`: replace the value when the key is present,
otherwise add the binding. -/
def ainsert {κ β : Type} [DecidableEq κ] (l : List (κ × β)) (k : κ) (v : β) :
    List (κ × β) :=
  if (alookup k l).isSome then l.map (fun p => if p.1 = k then (k, v) else p)
  else l ++ [(k, v)]

/-- Model of the `HashMap::get_mut` + mutate pattern: apply `f` to the value
stored under `k`, when present; leave the map unchanged otherwise. -/
def amodify {κ β : Type} [DecidableEq κ] (l : List (κ × β)) (k : κ) (f : β → β) :
    List (κ × β) :=
  l.map (fun p => if p.1 = k then (p.1, f p.2) else p)

/-! ### Hex encoding/decoding (model of the `hex` crate) -/

/-- Lower-case hex digit for a nibble (model of the `hex` crate's alphabet). -/
def hexChar (n : Nat) : Char :=
  if n < 10 then Char.ofNat (48 + n) else Char.ofNat (97 + (n - 10))

/-- Model of `hex::encode`: two lower-case hex digits per byte. -/
def hexEncode (bs : List Nat) : String :=
  ⟨bs.foldr (fun b acc => hexChar (b / 16) :: hexChar (b % 16) :: acc) []⟩

/-- Numeric value of a hex digit (either case), `none` for other characters. -/
def hexVal (c : Char) : Option Nat :=
  if 48 ≤ c.toNat ∧ c.toNat ≤ 57 then some (c.toNat - 48)
  else if 97 ≤ c.toNat ∧ c.toNat ≤ 102 then some (c.toNat - 87)
  else if 65 ≤ c.toNat ∧ c.toNat ≤ 70 then some (c.toNat - 55)
  else none

/-- Model of `hex::decode` on a character list: fails on odd length or a
non-hex character. -/
def hexDecodeChars : List Char → Option (List Nat)
  | [] => some []
  | [_] => none
  | c1 :: c2 :: rest =>
    match hexVal c1, hexVal c2, hexDecodeChars rest with
    | some hi, some lo, some bs => some ((hi * 16 + lo) :: bs)
    | _, _, _ => none

/-- Model of `hex::decode` on a string. -/
def hexDecode (s : String) : Option (List Nat) := hexDecodeChars s.data

/-- Model of `str::as_bytes` (UTF-8 bytes of a string). -/
def strBytes (s : String) : List Nat := s.toUTF8.toList.map (fun b => b.toNat)

/-! ### Hybrid logical clock (`src/src/hlc.rs`) -/

/-- An HLC timestamp `(physical_time_us, counter, node_id)`; the Rust
`u64`/`u32` fields are modelled as `Nat`. -/
structure HlcTimestamp where
  physical_time_us : Nat
  counter : Nat
  node_id : Nat
deriving DecidableEq

/-- `HlcTimestamp::zero`. -/
def HlcTimestamp.zero (node_id : Nat) : HlcTimestamp :=
  { physical_time_us := 0, counter := 0, node_id := node_id }

/-- The `Ord` impl of `HlcTimestamp`: lexicographic on
`physical_time_us`, then `counter`, then `node_id`. -/
def HlcTimestamp.cmp (a b : HlcTimestamp) : Ordering :=
  (compare a.physical_time_us b.physical_time_us).then
    ((compare a.counter b.counter).then (compare a.node_id b.node_id))

/-- Maximum allowed clock drift (`MAX_DRIFT_US`): 60 seconds in microseconds. -/
def HybridClock.MAX_DRIFT_US : Nat := 60000000

/-- `HybridClock::tick`, with the wall-clock reading `now_us` threaded as an
argument; returns the new clock state, which is also the returned timestamp. -/
def HybridClock.tick (state : HlcTimestamp) (now_us : Nat) : HlcTimestamp :=
  if state.physical_time_us < now_us then
    { state with physical_time_us := now_us, counter := 0 }
  else
    { state with counter := state.counter + 1 }

/-- Error payload when a remote HLC timestamp exceeds the drift bound. -/
structure HlcDriftError where
  remote_time_us : Nat
  local_time_us : Nat
  drift_us : Nat
  max_drift_us : Nat
deriving DecidableEq

/-- `HybridClock::receive`: first component is the clock state after the call
(unchanged when the drift check rejects the remote timestamp), second is the
returned `Result`. The branch structure mirrors the Rust `if`/`else if`
chain. -/
def HybridClock.receiveStep (state remote : HlcTimestamp) (now_us : Nat) :
    HlcTimestamp × Except HlcDriftError HlcTimestamp :=
  if now_us + HybridClock.MAX_DRIFT_US < remote.physical_time_us then
    (state, Except.error
      { remote_time_us := remote.physical_time_us
        local_time_us := now_us
        drift_us := remote.physical_time_us - now_us
        max_drift_us := HybridClock.MAX_DRIFT_US })
  else
    let t :=
      if state.physical_time_us < now_us ∧ remote.physical_time_us < now_us then
        { state with physical_time_us := now_us, counter := 0 }
      else if state.physical_time_us = remote.physical_time_us then
        { state with counter := max state.counter remote.counter + 1 }
      else if remote.physical_time_us < state.physical_time_us then
        { state with counter := state.counter + 1 }
      else
        { state with physical_time_us := remote.physical_time_us,
                     counter := remote.counter + 1 }
    (t, Except.ok t)

/-! ### Crypto model (`src/src/crypto.rs`)

SHA-256 (`sha2` crate) and Ed25519 (`ed25519_dalek` crate) are external
library code, not part of this repository.  They are modelled abstractly:
`content_hash` stands for SHA-256 over the event bytes and
`verify_signature` for Ed25519 verification `(public_key, message,
signature) → bool`.  Claims that rely on their cryptographic behaviour state
that behaviour as an explicit hypothesis. -/

structure CryptoModel where
  content_hash : List Nat → List Nat
  verify_signature : List Nat → List Nat → List Nat → Bool

/-- A Teambook identity: an Ed25519 public key together with the signing
function of the corresponding secret key (modelled abstractly). -/
structure TeambookIdentity where
  public_key : List Nat
  signFn : List Nat → List Nat

/-- A correct signature scheme: signatures produced by this identity's
signing key verify under its public key.  This is the modelled behaviour of
`ed25519_dalek` sign/verify. -/
def SchemeCorrect (C : CryptoModel) (id : TeambookIdentity) : Prop :=
  ∀ m, C.verify_signature id.public_key m (id.signFn m) = true

/-- `SignedEvent`: raw event bytes plus origin identity, signature and
content hash. -/
structure SignedEvent where
  event_bytes : List Nat
  origin_pubkey : List Nat
  signature : List Nat
  content_id : List Nat
deriving DecidableEq

/-- Verification failure reasons of `SignedEvent::verify`. -/
inductive SignedEventError where
  | ContentHashMismatch
  | InvalidSignature
deriving DecidableEq

/-- `SignedEvent::sign`. -/
def SignedEvent.sign (C : CryptoModel) (event_bytes : List Nat)
    (identity : TeambookIdentity) : SignedEvent :=
  { event_bytes := event_bytes
    origin_pubkey := identity.public_key
    signature := identity.signFn event_bytes
    content_id := C.content_hash event_bytes }

/-- `SignedEvent::verify`: content-hash equality is checked first, then the
Ed25519 signature. -/
def SignedEvent.verify (C : CryptoModel) (e : SignedEvent) :
    Except SignedEventError Unit :=
  if C.content_hash e.event_bytes ≠ e.content_id then
    Except.error SignedEventError.ContentHashMismatch
  else if ¬ C.verify_signature e.origin_pubkey e.event_bytes e.signature then
    Except.error SignedEventError.InvalidSignature
  else
    Except.ok ()

/-- `SignedEvent::content_id_hex`. -/
def SignedEvent.content_id_hex (e : SignedEvent) : String := hexEncode e.content_id

/-- `SignedEvent::origin_pubkey_hex`. -/
def SignedEvent.origin_pubkey_hex (e : SignedEvent) : String :=
  hexEncode e.origin_pubkey

/-! ### Federation peer registry (`src/src/federation.rs`) -/

/-- Connection status of a federation peer. -/
inductive PeerStatus where
  | Online
  | Offline
  | PendingMutual
  | Removed
deriving DecidableEq

/-- Registered peer record. -/
structure PeerInfo where
  public_key : List Nat
  display_name : String
  endpoint : String
  registered_at : Nat
  last_seen_at : Nat
  last_synced_seq : Nat
  initiated_by_us : Bool
  status : PeerStatus
deriving DecidableEq

/-- Minimum identity tier required of federation peers. -/
inductive AuthTier where
  | DeviceBound
  | OAuthVerified
  | HardwareAttested
deriving DecidableEq

/-- Federation policy (`max_peers = 0` means unlimited). -/
structure FederationPolicy where
  min_auth_tier : AuthTier
  require_mutual : Bool
  auto_accept_known : Bool
  max_peers : Nat
deriving DecidableEq

/-- Incoming peer registration request. -/
structure PeerRegistrationRequest where
  public_key : List Nat
  display_name : String
  endpoint : String
  challenge_nonce : String
  challenge_signature : String
deriving DecidableEq

/-- Response to a registration request. -/
structure PeerRegistrationResponse where
  accepted : Bool
  reason : Option String
  public_key : List Nat
  display_name : String
  endpoint : String
  challenge_nonce : String
  challenge_signature : String
deriving DecidableEq

/-- `FederationState`: identity, HLC, peer registry (keyed by hex public
key), dedup cache (`seen_events : hash_hex → first_seen_us`) and policy. -/
structure FedState where
  identity : TeambookIdentity
  clock : HlcTimestamp
  peers : List (String × PeerInfo)
  seen_events : List (String × Nat)
  policy : FederationPolicy
  display_name : String
  local_endpoint : String

/-- `FederationState::is_known_peer`: the key is registered and not Removed. -/
def FedState.is_known_peer (fs : FedState) (pubkey : List Nat) : Bool :=
  match alookup (hexEncode pubkey) fs.peers with
  | some p => decide (p.status ≠ PeerStatus.Removed)
  | none => false

/-- `FederationState::list_peers`: all non-Removed peer records. -/
def FedState.list_peers (fs : FedState) : List PeerInfo :=
  (fs.peers.map Prod.snd).filter (fun p => decide (p.status ≠ PeerStatus.Removed))

/-- `FederationState::remove_peer`: transition the record to `Removed`
(tombstone retained); returns whether the key was present. -/
def FedState.remove_peer (fs : FedState) (pubkey_hex : String) :
    FedState × Bool :=
  match alookup pubkey_hex fs.peers with
  | some _ =>
    ({ fs with
        peers := amodify fs.peers pubkey_hex
          (fun p => { p with status := PeerStatus.Removed }) }, true)
  | none => (fs, false)

/-- `FederationState::touch_peer`: update `last_seen_at` and flip the status
to `Online` when the key is present. -/
def FedState.touch_peer (fs : FedState) (pubkey_hex : String) (now_us : Nat) :
    FedState :=
  { fs with
      peers := amodify fs.peers pubkey_hex
        (fun p => { p with last_seen_at := now_us, status := PeerStatus.Online }) }

/-- `FederationState::update_peer_sync_seq`. -/
def FedState.update_peer_sync_seq (fs : FedState) (pubkey_hex : String)
    (seq : Nat) : FedState :=
  { fs with
      peers := amodify fs.peers pubkey_hex
        (fun p => { p with last_synced_seq := seq }) }

/-- `FederationState::is_new_event`: true iff the content hash is absent from
the dedup cache. -/
def FedState.is_new_event (fs : FedState) (content_hash_hex : String) : Bool :=
  (alookup content_hash_hex fs.seen_events).isNone

/-- `FederationState::mark_event_seen`. -/
def FedState.mark_event_seen (fs : FedState) (content_hash_hex : String)
    (now_us : Nat) : FedState :=
  { fs with seen_events := ainsert fs.seen_events content_hash_hex now_us }

/-- Number of non-Removed peers (the count used by the `max_peers` check). -/
def FedState.active_peer_count (fs : FedState) : Nat :=
  (fs.peers.filter (fun p => decide (p.2.status ≠ PeerStatus.Removed))).length

/-- `FederationState::reject_registration`. -/
def FedState.reject_registration (fs : FedState) (reason : String) :
    PeerRegistrationResponse :=
  { accepted := false
    reason := some reason
    public_key := fs.identity.public_key
    display_name := fs.display_name
    endpoint := fs.local_endpoint
    challenge_nonce := ""
    challenge_signature := "" }

/-- `FederationState::handle_registration`.  Validates, in order: the
challenge signature hex-decodes to exactly 64 bytes; the signature verifies
over the nonce bytes under the requester's public key; the `max_peers`
limit.  On success the peer is upserted with `initiated_by_us = false` and
`status = Online`.  The wall-clock reading and the randomly generated
response nonce are threaded as arguments. -/
def FedState.handle_registration (C : CryptoModel) (fs : FedState)
    (req : PeerRegistrationRequest) (now_us : Nat) (fresh_nonce : String) :
    FedState × PeerRegistrationResponse :=
  match hexDecode req.challenge_signature with
  | none => (fs, fs.reject_registration "invalid challenge signature format")
  | some sig_bytes =>
    if sig_bytes.length = 64 then
      if C.verify_signature req.public_key (strBytes req.challenge_nonce) sig_bytes then
        if 0 < fs.policy.max_peers ∧ fs.policy.max_peers ≤ fs.active_peer_count then
          (fs, fs.reject_registration
            ("peer limit reached (" ++ toString fs.active_peer_count ++ "/" ++
              toString fs.policy.max_peers ++ ")"))
        else
          let peer : PeerInfo :=
            { public_key := req.public_key
              display_name := req.display_name
              endpoint := req.endpoint
              registered_at := now_us
              last_seen_at := now_us
              last_synced_seq := 0
              initiated_by_us := false
              status := PeerStatus.Online }
          ({ fs with peers := ainsert fs.peers (hexEncode req.public_key) peer },
            { accepted := true
              reason := none
              public_key := fs.identity.public_key
              display_name := fs.display_name
              endpoint := fs.local_endpoint
              challenge_nonce := fresh_nonce
              challenge_signature :=
                hexEncode (fs.identity.signFn (strBytes fresh_nonce)) })
      else
        (fs, fs.reject_registration "challenge signature verification failed")
    else
      (fs, fs.reject_registration "invalid challenge signature format")

/-! ### Federation push pipeline (`src/src/federation_sync.rs`) -/

/-- Rejection reasons for events in a sync batch. -/
inductive SyncRejectReason where
  | InvalidSignature
  | ContentHashMismatch
  | UnknownPeer
  | ExcessiveDrift
  | MalformedEvent
deriving DecidableEq

/-- Error record for one rejected event: its batch index, its content hash
in hex, and the reason. -/
structure SyncError where
  index : Nat
  content_id : String
  reason : SyncRejectReason
deriving DecidableEq

/-- Batch of signed events pushed between Teambooks. -/
structure EventPushRequest where
  events : List SignedEvent
  sender_hlc : HlcTimestamp
  sender_head_seq : Nat

/-- Response to a push request. -/
structure EventPushResponse where
  accepted : Nat
  duplicates : Nat
  rejected : Nat
  errors : List SyncError
  receiver_hlc : HlcTimestamp
  receiver_head_seq : Nat
deriving DecidableEq

/-- The mapping from `SignedEventError` to `SyncRejectReason` used inside
`process_push`. -/
def sync_reason_of : SignedEventError → SyncRejectReason
  | SignedEventError.InvalidSignature => SyncRejectReason.InvalidSignature
  | SignedEventError.ContentHashMismatch => SyncRejectReason.ContentHashMismatch

/-- Per-event outcome inside the `process_push` loop. -/
inductive EventOutcome where
  | accepted
  | duplicate
  | rejected (reason : SyncRejectReason)
deriving DecidableEq

/-- The body of the `process_push` loop for one event, in source order:
empty bytes → `MalformedEvent`; failed `verify()` → its mapped reason;
unknown origin peer → `UnknownPeer`; content hash already seen → duplicate
(no state change); otherwise accept: insert into the dedup cache and touch
the origin peer. -/
def process_push_event (C : CryptoModel) (fs : FedState) (e : SignedEvent)
    (now_us : Nat) : FedState × EventOutcome :=
  if e.event_bytes = [] then
    (fs, EventOutcome.rejected SyncRejectReason.MalformedEvent)
  else
    match SignedEvent.verify C e with
    | Except.error err => (fs, EventOutcome.rejected (sync_reason_of err))
    | Except.ok _ =>
      if ¬ fs.is_known_peer e.origin_pubkey then
        (fs, EventOutcome.rejected SyncRejectReason.UnknownPeer)
      else if ¬ fs.is_new_event e.content_id_hex then
        (fs, EventOutcome.duplicate)
      else
        ((fs.mark_event_seen e.content_id_hex now_us).touch_peer
            e.origin_pubkey_hex now_us,
          EventOutcome.accepted)

/-- Counters and error list accumulated by the `process_push` loop. -/
structure PushCounts where
  accepted : Nat
  duplicates : Nat
  rejected : Nat
  errors : List SyncError
deriving DecidableEq

/-- The `process_push` loop over the batch, with `i` the index of the first
event of the remaining list.  Counter increments and error entries are
contributed per event exactly as in the Rust loop; errors are kept in batch
order. -/
def process_push_loop (C : CryptoModel) (now_us : Nat) :
    List SignedEvent → Nat → FedState → FedState × PushCounts
  | [], _, fs => (fs, { accepted := 0, duplicates := 0, rejected := 0, errors := [] })
  | e :: rest, i, fs =>
    match process_push_event C fs e now_us with
    | (fs1, out) =>
      match process_push_loop C now_us rest (i + 1) fs1 with
      | (fsF, c) =>
        match out with
        | EventOutcome.accepted =>
          (fsF, { c with accepted := c.accepted + 1 })
        | EventOutcome.duplicate =>
          (fsF, { c with duplicates := c.duplicates + 1 })
        | EventOutcome.rejected r =>
          (fsF, { c with
                    rejected := c.rejected + 1
                    errors := { index := i, content_id := e.content_id_hex,
                                reason := r } :: c.errors })

/-- `process_push`: merge the sender's HLC into the local clock (a drift
failure is logged, not fatal), run the per-event loop, then `tick()` for the
response's `receiver_hlc`. -/
def process_push (C : CryptoModel) (fs : FedState) (req : EventPushRequest)
    (now_us : Nat) : FedState × EventPushResponse :=
  let fs0 := { fs with
    clock := (HybridClock.receiveStep fs.clock req.sender_hlc now_us).1 }
  match process_push_loop C now_us req.events 0 fs0 with
  | (fs1, c) =>
    let current_hlc := HybridClock.tick fs1.clock now_us
    ({ fs1 with clock := current_hlc },
      { accepted := c.accepted
        duplicates := c.duplicates
        rejected := c.rejected
        errors := c.errors
        receiver_hlc := current_hlc
        receiver_head_seq := 0 })

/-- The peers `push_to_all_peers` dispatches to: `list_peers` with `Removed`
peers skipped (the loop's explicit skip repeated over the already-filtered
list). -/
def push_fanout_targets (fs : FedState) : List PeerInfo :=
  fs.list_peers.filter (fun p => decide (p.status ≠ PeerStatus.Removed))

/-- The peers `pull_from_all_peers` iterates over, with the same skip. -/
def pull_fanout_targets (fs : FedState) : List PeerInfo :=
  fs.list_peers.filter (fun p => decide (p.status ≠ PeerStatus.Removed))

/-! ### Vector clocks (`src/mobile/rust/deepnet-core/src/message.rs`)

`NodeId` (32 bytes used only for identity) is modelled as `Nat`; the
`HashMap<NodeId, u64>` of a vector clock is an association list in insertion
order.  `HashMap` equality compares entry sets, which for maps with no
duplicate keys is exactly lookup-extensional equality (`VectorClock.EquivMap`
below). -/

/-- `entry(k).or_insert(0); *e = max(*e, v)` — the update step of
`VectorClock::merge`. -/
def upsertMax (l : List (Nat × Nat)) (k v : Nat) : List (Nat × Nat) :=
  if (alookup k l).isSome then
    l.map (fun p => if p.1 = k then (p.1, max p.2 v) else p)
  else l ++ [(k, v)]

/-- Vector clock: map of node id → logical timestamp. -/
structure VectorClock where
  clocks : List (Nat × Nat)
deriving DecidableEq

/-- `VectorClock::get`: absent entries read as 0. -/
def VectorClock.get (vc : VectorClock) (node_id : Nat) : Nat :=
  (alookup node_id vc.clocks).getD 0

/-- `VectorClock::increment`. -/
def VectorClock.increment (vc : VectorClock) (node_id : Nat) : VectorClock :=
  ⟨if (alookup node_id vc.clocks).isSome then
      amodify vc.clocks node_id (fun t => t + 1)
    else vc.clocks ++ [(node_id, 1)]⟩

/-- `VectorClock::merge`: componentwise maximum, folding the other clock's
entries into this one. -/
def VectorClock.merge (a b : VectorClock) : VectorClock :=
  ⟨b.clocks.foldl (fun acc p => upsertMax acc p.1 p.2) a.clocks⟩

/-- `VectorClock::happened_before`: no component of `a` exceeds `b`, and
either some component of `a` is strictly below `b`, or `b` has a positive
entry at a key absent from `a`.  This is the single-pass Rust loop written
as `all`/`any` scans. -/
def VectorClock.happened_before (a b : VectorClock) : Bool :=
  (a.clocks.all fun p => decide (p.2 ≤ b.get p.1)) &&
    ((a.clocks.any fun p => decide (p.2 < b.get p.1)) ||
      (b.clocks.any fun p => (alookup p.1 a.clocks).isNone && decide (0 < p.2)))

/-- `VectorClock::is_concurrent`. -/
def VectorClock.is_concurrent (a b : VectorClock) : Bool :=
  !(a.happened_before b) && !(b.happened_before a)

/-- `HashMap` equality of two vector clocks: identical lookup at every key
(equivalent to equal entry sets when keys are not duplicated). -/
def VectorClock.EquivMap (a b : VectorClock) : Prop :=
  ∀ k, alookup k a.clocks = alookup k b.clocks

/-! ### Sync manager (`src/mobile/rust/deepnet-core/src/sync.rs`) -/

/-- Data layer of a mesh message. -/
inductive DataLayer where
  | Private
  | Shared
  | Federated
deriving DecidableEq

/-- Mesh message envelope.  `MessageId` (16 random bytes) is modelled as
`Nat`; the payload and optional signature are not read by
`process_incoming` and are omitted from the model. -/
structure MessageEnvelope where
  id : Nat
  origin : Nat
  clock : VectorClock
  layer : DataLayer
  ttl : Nat
  timestamp : Nat
deriving DecidableEq

/-- Result of `SyncManager::process_incoming`. -/
inductive SyncDecision where
  | AlreadySeen
  | Process (should_forward : Bool)
deriving DecidableEq

/-- The `SyncManager` state read and written by `process_incoming`: the
vector clock and the seen-message set.  The `HashSet` is modelled as a list
in insertion order (its Rust iteration order is arbitrary; eviction below
drops a prefix of that order). -/
structure SyncManagerState where
  node_id : Nat
  clock : VectorClock
  seen_messages : List Nat
  max_seen_messages : Nat
deriving DecidableEq

/-- `SyncManager::merge_clock`. -/
def SyncManagerState.merge_clock (s : SyncManagerState) (received : VectorClock) :
    SyncManagerState :=
  { s with clock := s.clock.merge received }

/-- `SyncManager::process_incoming`: return `AlreadySeen` for a seen id;
otherwise insert the id, evict half the seen set when it exceeds
`max_seen_messages` (the Rust code removes `seen.iter().take(len/2)`, i.e.
the first half of the iteration order), merge the envelope's clock, and
return `Process` with `should_forward = (layer == Federated && ttl > 0)`. -/
def SyncManagerState.process_incoming (s : SyncManagerState)
    (msg : MessageEnvelope) : SyncManagerState × SyncDecision :=
  if msg.id ∈ s.seen_messages then
    (s, SyncDecision.AlreadySeen)
  else
    let seen1 := s.seen_messages ++ [msg.id]
    let seen2 :=
      if s.max_seen_messages < seen1.length then seen1.drop (seen1.length / 2)
      else seen1
    let s2 := SyncManagerState.merge_clock { s with seen_messages := seen2 } msg.clock
    (s2, SyncDecision.Process
      (decide (msg.layer = DataLayer.Federated) && decide (0 < msg.ttl)))

/-! ### Concrete instances used by counterexamples and witnesses -/

/-- Crypto model instance: the hash is the identity on byte lists (injective,
so distinct bytes get distinct hashes) and every signature verifies. -/
def cryptoId : CryptoModel :=
  { content_hash := fun bs => bs
    verify_signature := fun _ _ _ => true }

/-- Crypto model instance whose signature check accepts exactly the message
itself signed under public key `[1]`. -/
def cryptoExact : CryptoModel :=
  { content_hash := fun bs => bs
    verify_signature := fun pk m sg => decide (sg = m ∧ pk = [1]) }

/-- Identity with public key `[1]` whose signing function is the identity. -/
def identityOne : TeambookIdentity :=
  { public_key := [1], signFn := fun m => m }

/-- A registered, online peer record for public key `[1]`. -/
def peerOne : PeerInfo :=
  { public_key := [1]
    display_name := "sender"
    endpoint := "http://localhost:8081"
    registered_at := 0
    last_seen_at := 0
    last_synced_seq := 0
    initiated_by_us := false
    status := PeerStatus.Online }

/-- A federation state with the single registered peer `peerOne`. -/
def fedStateEx : FedState :=
  { identity := { public_key := [9], signFn := fun m => m }
    clock := HlcTimestamp.zero 42
    peers := [(hexEncode [1], peerOne)]
    seen_events := []
    policy := { min_auth_tier := AuthTier.DeviceBound, require_mutual := true,
                auto_accept_known := false, max_peers := 10 }
    display_name := "receiver"
    local_endpoint := "http://localhost:8080" }

/-- A valid signed event from peer `[1]` under `cryptoId`. -/
def eventValid : SignedEvent :=
  { event_bytes := [10, 20], origin_pubkey := [1],
    signature := [10, 20], content_id := [10, 20] }

/-- `eventValid` with its first byte flipped (content hash now stale). -/
def eventFlipped : SignedEvent :=
  { event_bytes := [255, 20], origin_pubkey := [1],
    signature := [10, 20], content_id := [10, 20] }

/-- The two-event push batch of claim C1: one valid event and one event with
a flipped byte, both from the registered sender `[1]`. -/
def pushReqEx : EventPushRequest :=
  { events := [eventValid, eventFlipped]
    sender_hlc := HlcTimestamp.zero 5
    sender_head_seq := 1 }

/-- A valid registration request for public key `[1]` (the challenge
signature decodes to 64 zero bytes, accepted by `cryptoId`). -/
def regReqEx : PeerRegistrationRequest :=
  { public_key := [1]
    display_name := "sender"
    endpoint := "http://localhost:8081"
    challenge_nonce := "nonce"
    challenge_signature :=
      String.mk (List.replicate 128 (Char.ofNat 48)) }

/-- Sync manager state with an eviction threshold of one seen message. -/
def syncStateEx : SyncManagerState :=
  { node_id := 7, clock := ⟨[]⟩, seen_messages := [], max_seen_messages := 1 }

/-- A federated envelope with id 0. -/
def msgA : MessageEnvelope :=
  { id := 0, origin := 5, clock := ⟨[]⟩, layer := DataLayer.Federated,
    ttl := 3, timestamp := 0 }

/-- A federated envelope with id 1. -/
def msgB : MessageEnvelope :=
  { id := 1, origin := 5, clock := ⟨[]⟩, layer := DataLayer.Federated,
    ttl := 3, timestamp := 0 }

/-- Pointwise combination of two optional clock entries by `max`: the lookup
behaviour of `VectorClock::merge` (absent/absent stays absent). -/
def combineOpt : Option Nat → Option Nat → Option Nat
  | some x, some y => some (max x y)
  | some x, none => some x
  | none, some y => some y
  | none, none => none

/-! ## Theorems -/

theorem alookup_eq_none_iff {κ β : Type} [DecidableEq κ] (k : κ) (l : List (κ × β)) :
    alookup k l = none ↔ k ∉ akeys l := by
  induction l with
  | nil => simp [alookup, akeys]
  | cons p rest ih =>
    by_cases h : p.1 = k
    · simp [alookup, akeys, h]
    · simp only [alookup, if_neg h, akeys, List.map_cons, List.mem_cons, not_or, ih]
      constructor
      · intro hm
        exact ⟨fun he => h he.symm, hm⟩
      · intro hm
        exact hm.2

theorem alookup_some_mem {κ β : Type} [DecidableEq κ] {k : κ} {v : β}
    {l : List (κ × β)} (h : alookup k l = some v) : (k, v) ∈ l := by
  induction l with
  | nil => simp [alookup] at h
  | cons p rest ih =>
    rcases p with ⟨pk, pv⟩
    by_cases hp : pk = k
    · subst hp
      simp [alookup] at h
      subst h
      exact List.mem_cons_self _ _
    · simp [alookup, hp] at h
      exact List.mem_cons_of_mem _ (ih h)

theorem mem_alookup_of_nodup {κ β : Type} [DecidableEq κ] {k : κ} {v : β}
    {l : List (κ × β)} (hnd : NodupKeys l) (h : (k, v) ∈ l) :
    alookup k l = some v := by
  induction l with
  | nil => simp at h
  | cons p rest ih =>
    have hnd' : p.1 ∉ akeys rest ∧ (akeys rest).Nodup := by
      simpa [akeys, NodupKeys] using hnd
    rcases List.mem_cons.mp h with h1 | h2
    · rw [← h1]
      simp [alookup]
    · have hk : k ∈ akeys rest := List.mem_map_of_mem Prod.fst h2
      have hp : ¬ p.1 = k := fun he => hnd'.1 (he ▸ hk)
      simp only [alookup, if_neg hp]
      exact ih hnd'.2 h2

theorem alookup_map_replace_self {κ β : Type} [DecidableEq κ]
    (l : List (κ × β)) (k : κ) (v : β) (h : (alookup k l).isSome) :
    alookup k (l.map (fun p => if p.1 = k then (k, v) else p)) = some v := by
  induction l with
  | nil => simp [alookup] at h
  | cons p rest ih =>
    by_cases hp : p.1 = k
    · simp [alookup, hp]
    · simp only [alookup, if_neg hp] at h
      simpa [alookup, hp] using ih h

theorem alookup_map_replace_ne {κ β : Type} [DecidableEq κ]
    (l : List (κ × β)) (k k' : κ) (v : β) (h : k' ≠ k) :
    alookup k' (l.map (fun p => if p.1 = k then (k, v) else p)) = alookup k' l := by
  induction l with
  | nil => simp
  | cons p rest ih =>
    by_cases hq : p.1 = k
    · have h1 : ¬ (k = k') := fun he => h he.symm
      have h2 : ¬ (p.1 = k') := by rw [hq]; exact h1
      simpa [alookup, hq, h1, h2] using ih
    · by_cases hp : p.1 = k'
      · simp [alookup, hq, hp, h]
      · simpa [alookup, hq, hp] using ih

theorem alookup_append_single_self {κ β : Type} [DecidableEq κ]
    (l : List (κ × β)) (k : κ) (v : β) (h : alookup k l = none) :
    alookup k (l ++ [(k, v)]) = some v := by
  induction l with
  | nil => simp [alookup]
  | cons p rest ih =>
    by_cases hp : p.1 = k
    · simp [alookup, hp] at h
    · simp only [alookup, if_neg hp] at h
      simpa [alookup, hp] using ih h

theorem alookup_append_single_ne {κ β : Type} [DecidableEq κ]
    (l : List (κ × β)) (k k' : κ) (v : β) (h : k' ≠ k) :
    alookup k' (l ++ [(k, v)]) = alookup k' l := by
  induction l with
  | nil =>
    simp only [List.nil_append, alookup]
    rw [if_neg (fun he => h he.symm)]
  | cons p rest ih =>
    by_cases hp : p.1 = k'
    · simp [alookup, hp]
    · simpa [alookup, hp] using ih

theorem alookup_not_isSome_eq_none {κ β : Type} [DecidableEq κ]
    {k : κ} {l : List (κ × β)} (h : ¬ (alookup k l).isSome) :
    alookup k l = none := by
  cases hl : alookup k l with
  | none => rfl
  | some w => rw [hl] at h; simp at h

theorem alookup_ainsert_self {κ β : Type} [DecidableEq κ] (l : List (κ × β))
    (k : κ) (v : β) : alookup k (ainsert l k v) = some v := by
  unfold ainsert
  by_cases h : (alookup k l).isSome
  · rw [if_pos h]
    exact alookup_map_replace_self l k v h
  · rw [if_neg h]
    exact alookup_append_single_self l k v (alookup_not_isSome_eq_none h)

theorem alookup_ainsert_ne {κ β : Type} [DecidableEq κ] (l : List (κ × β))
    (k k' : κ) (v : β) (h : k' ≠ k) :
    alookup k' (ainsert l k v) = alookup k' l := by
  unfold ainsert
  by_cases hs : (alookup k l).isSome
  · rw [if_pos hs]
    exact alookup_map_replace_ne l k k' v h
  · rw [if_neg hs]
    exact alookup_append_single_ne l k k' v h

theorem alookup_amodify_self {κ β : Type} [DecidableEq κ] (l : List (κ × β))
    (k : κ) (f : β → β) :
    alookup k (amodify l k f) = (alookup k l).map f := by
  induction l with
  | nil => simp [amodify, alookup]
  | cons p rest ih =>
    by_cases hp : p.1 = k
    · simp [amodify, alookup, hp]
    · simpa [amodify, alookup, hp] using ih

theorem alookup_amodify_ne {κ β : Type} [DecidableEq κ] (l : List (κ × β))
    (k k' : κ) (f : β → β) (h : k' ≠ k) :
    alookup k' (amodify l k f) = alookup k' l := by
  induction l with
  | nil => simp [amodify, alookup]
  | cons p rest ih =>
    by_cases hp : p.1 = k
    · have h3 : ¬ (k = k') := fun he => h he.symm
      simpa [amodify, alookup, hp, h3] using ih
    · by_cases hq : p.1 = k'
      · simp [amodify, alookup, hp, hq, h]
      · simpa [amodify, alookup, hp, hq] using ih

theorem akeys_amodify {κ β : Type} [DecidableEq κ] (l : List (κ × β)) (k : κ)
    (f : β → β) : akeys (amodify l k f) = akeys l := by
  induction l with
  | nil => rfl
  | cons p rest ih =>
    simp only [amodify, akeys, List.map_cons] at ih ⊢
    by_cases hp : p.1 = k <;> simp [hp, ih]

theorem nat_compare_then_lt_iff (x y : Nat) (o : Ordering) :
    (compare x y).then o = Ordering.lt ↔ x < y ∨ (x = y ∧ o = Ordering.lt) := by
  rcases Nat.lt_trichotomy x y with h | h | h
  · simp [Nat.compare_eq_lt.mpr h, Ordering.then, h]
  · subst h
    simp [Nat.compare_eq_eq.mpr rfl, Ordering.then, Nat.lt_irrefl]
  · have hlt : ¬ x < y := Nat.lt_asymm h
    have hne : x ≠ y := fun he => Nat.lt_irrefl y (he ▸ h)
    simp [Nat.compare_eq_gt.mpr h, Ordering.then, hlt, hne]

theorem hlc_cmp_lt_iff (a b : HlcTimestamp) :
    HlcTimestamp.cmp a b = Ordering.lt ↔
      a.physical_time_us < b.physical_time_us ∨
        (a.physical_time_us = b.physical_time_us ∧
          (a.counter < b.counter ∨
            (a.counter = b.counter ∧ a.node_id < b.node_id))) := by
  unfold HlcTimestamp.cmp
  rw [nat_compare_then_lt_iff, nat_compare_then_lt_iff, Nat.compare_eq_lt]

theorem tick_cmp_lt (s : HlcTimestamp) (now_us : Nat) :
    HlcTimestamp.cmp s (HybridClock.tick s now_us) = Ordering.lt := by
  rw [hlc_cmp_lt_iff]
  unfold HybridClock.tick
  by_cases h : s.physical_time_us < now_us
  · rw [if_pos h]
    exact Or.inl h
  · rw [if_neg h]
    exact Or.inr ⟨rfl, Or.inl (Nat.lt_succ_self _)⟩

theorem receive_ok_cmp_lt (s remote : HlcTimestamp) (now_us : Nat)
    (t : HlcTimestamp) (h : (HybridClock.receiveStep s remote now_us).2 = Except.ok t) :
    HlcTimestamp.cmp s t = Ordering.lt ∧
      HlcTimestamp.cmp remote t = Ordering.lt := by
  unfold HybridClock.receiveStep at h
  by_cases hd : now_us + HybridClock.MAX_DRIFT_US < remote.physical_time_us
  · simp [hd] at h
  · simp only [if_neg hd, Except.ok.injEq] at h
    subst h
    rw [hlc_cmp_lt_iff, hlc_cmp_lt_iff]
    by_cases h1 : s.physical_time_us < now_us ∧ remote.physical_time_us < now_us
    · rw [if_pos h1]
      exact ⟨Or.inl h1.1, Or.inl h1.2⟩
    · by_cases h2 : s.physical_time_us = remote.physical_time_us
      · rw [if_neg h1, if_pos h2]
        constructor
        · exact Or.inr ⟨rfl, Or.inl (Nat.lt_succ_of_le (Nat.le_max_left _ _))⟩
        · exact Or.inr ⟨h2.symm, Or.inl (Nat.lt_succ_of_le (Nat.le_max_right _ _))⟩
      · by_cases h3 : remote.physical_time_us < s.physical_time_us
        · rw [if_neg h1, if_neg h2, if_pos h3]
          exact ⟨Or.inr ⟨rfl, Or.inl (Nat.lt_succ_self _)⟩, Or.inl h3⟩
        · rw [if_neg h1, if_neg h2, if_neg h3]
          have h4 : s.physical_time_us < remote.physical_time_us := by omega
          exact ⟨Or.inl h4, Or.inr ⟨rfl, Or.inl (Nat.lt_succ_self _)⟩⟩

theorem scanl_tick_head (s : HlcTimestamp) (nows : List Nat) :
    (nows.scanl HybridClock.tick s).head? = some s := by
  cases nows <;> simp [List.scanl]

/-- C3: every timestamp a node's `HybridClock` emits is strictly greater than
the previous one under the total order `(physical_time_us, counter, node_id)`
(the `Ord` impl, here `HlcTimestamp.cmp`): each `tick()` strictly advances
the clock state, any sequence of `tick()` calls yields strictly increasing
timestamps, and a `receive(remote)` that returns `Ok` yields a timestamp
strictly greater than both the prior local state and the remote timestamp. -/
theorem claim_C3_hlc_monotone :
    (∀ (s : HlcTimestamp) (now_us : Nat),
      HlcTimestamp.cmp s (HybridClock.tick s now_us) = Ordering.lt)
    ∧ (∀ (s : HlcTimestamp) (nows : List Nat),
        List.Chain' (fun a b => HlcTimestamp.cmp a b = Ordering.lt)
          (nows.scanl HybridClock.tick s))
    ∧ (∀ (s remote : HlcTimestamp) (now_us : Nat) (t : HlcTimestamp),
        (HybridClock.receiveStep s remote now_us).2 = Except.ok t →
          HlcTimestamp.cmp s t = Ordering.lt ∧
            HlcTimestamp.cmp remote t = Ordering.lt) := by
  refine ⟨tick_cmp_lt, ?_, receive_ok_cmp_lt⟩
  intro s nows
  induction nows generalizing s with
  | nil => simp [List.scanl]
  | cons n ns ih =>
    rw [List.scanl, List.chain'_cons']
    constructor
    · intro b hb
      rw [scanl_tick_head] at hb
      cases hb
      exact tick_cmp_lt s n
    · exact ih (HybridClock.tick s n)

/-- Witness for C3 at concrete inputs: a tick from the zero state at time 5,
a three-tick chain, and a successful receive of a remote timestamp. -/
theorem claim_C3_witness :
    HlcTimestamp.cmp (HlcTimestamp.zero 1)
        (HybridClock.tick (HlcTimestamp.zero 1) 5) = Ordering.lt
    ∧ List.Chain' (fun a b => HlcTimestamp.cmp a b = Ordering.lt)
        (([5, 5, 6] : List Nat).scanl HybridClock.tick (HlcTimestamp.zero 1))
    ∧ (HlcTimestamp.cmp (HlcTimestamp.zero 1)
          { physical_time_us := 5, counter := 0, node_id := 1 } = Ordering.lt
        ∧ HlcTimestamp.cmp (HlcTimestamp.zero 2)
            { physical_time_us := 5, counter := 0, node_id := 1 } = Ordering.lt) :=
  ⟨claim_C3_hlc_monotone.1 (HlcTimestamp.zero 1) 5,
    claim_C3_hlc_monotone.2.1 (HlcTimestamp.zero 1) [5, 5, 6],
    claim_C3_hlc_monotone.2.2 (HlcTimestamp.zero 1) (HlcTimestamp.zero 2) 5
      { physical_time_us := 5, counter := 0, node_id := 1 } rfl⟩

/-- C4: `HybridClock::receive(remote)` fails with an `HlcDriftError` if and
only if `remote.physical_time_us` exceeds the local wall-clock reading by
more than `MAX_DRIFT_US` (60 s), and on that failure the clock state is left
unchanged and the error carries the drift data. -/
theorem claim_C4_drift_bound (s remote : HlcTimestamp) (now_us : Nat) :
    ((∃ err, (HybridClock.receiveStep s remote now_us).2 = Except.error err) ↔
      now_us + HybridClock.MAX_DRIFT_US < remote.physical_time_us)
    ∧ (now_us + HybridClock.MAX_DRIFT_US < remote.physical_time_us →
        HybridClock.receiveStep s remote now_us =
          (s, Except.error
            { remote_time_us := remote.physical_time_us
              local_time_us := now_us
              drift_us := remote.physical_time_us - now_us
              max_drift_us := HybridClock.MAX_DRIFT_US })) := by
  constructor
  · unfold HybridClock.receiveStep
    by_cases hd : now_us + HybridClock.MAX_DRIFT_US < remote.physical_time_us
    · simp [hd]
    · simp [hd]
  · intro hd
    unfold HybridClock.receiveStep
    rw [if_pos hd]

/-- Witness for C4 at the exact drift boundary: with the local clock at 0, a
remote physical time of exactly `MAX_DRIFT_US` is accepted, while
`MAX_DRIFT_US + 1` is rejected and leaves the state unchanged. -/
theorem claim_C4_witness :
    (¬ ∃ err, (HybridClock.receiveStep (HlcTimestamp.zero 1)
        { physical_time_us := HybridClock.MAX_DRIFT_US, counter := 0, node_id := 2 }
        0).2 = Except.error err)
    ∧ (HybridClock.receiveStep (HlcTimestamp.zero 1)
        { physical_time_us := HybridClock.MAX_DRIFT_US + 1, counter := 0, node_id := 2 }
        0).1 = HlcTimestamp.zero 1 := by
  constructor
  · intro hex
    have := (claim_C4_drift_bound (HlcTimestamp.zero 1)
      { physical_time_us := HybridClock.MAX_DRIFT_US, counter := 0, node_id := 2 }
      0).1.mp hex
    revert this
    decide
  · exact congrArg Prod.fst
      ((claim_C4_drift_bound (HlcTimestamp.zero 1)
        { physical_time_us := HybridClock.MAX_DRIFT_US + 1, counter := 0, node_id := 2 }
        0).2 (by decide))

/-- C2: for a `SignedEvent` produced by `sign`, `verify()` returns `Ok`;
whenever the content hash is wrong, `verify()` reports `ContentHashMismatch`
regardless of the signature (content-id equality is checked first); a
single-byte mutation of `event_bytes` yields `ContentHashMismatch` (given
the modelled SHA-256 property that the mutated bytes hash differently); and
a mutation of `origin_pubkey` or `signature` — which leaves the hash check
intact — yields `InvalidSignature` (given the modelled Ed25519 property
that the mutated pair no longer verifies). -/
theorem claim_C2_sign_verify (C : CryptoModel) (id : TeambookIdentity)
    (bytes : List Nat) (hsig : SchemeCorrect C id) :
    SignedEvent.verify C (SignedEvent.sign C bytes id) = Except.ok ()
    ∧ (∀ e : SignedEvent, C.content_hash e.event_bytes ≠ e.content_id →
        SignedEvent.verify C e = Except.error SignedEventError.ContentHashMismatch)
    ∧ (∀ (i b : Nat),
        C.content_hash (bytes.set i b) ≠ C.content_hash bytes →
        SignedEvent.verify C
            { SignedEvent.sign C bytes id with event_bytes := bytes.set i b } =
          Except.error SignedEventError.ContentHashMismatch)
    ∧ (∀ pk sg : List Nat,
        C.verify_signature pk bytes sg = false →
        SignedEvent.verify C
            { SignedEvent.sign C bytes id with
                origin_pubkey := pk, signature := sg } =
          Except.error SignedEventError.InvalidSignature) := by
  refine ⟨?_, ?_, ?_, ?_⟩
  · simp [SignedEvent.verify, SignedEvent.sign, hsig bytes]
  · intro e he
    simp [SignedEvent.verify, he]
  · intro i b hm
    simp [SignedEvent.verify, SignedEvent.sign, hm]
  · intro pk sg hs
    simp [SignedEvent.verify, SignedEvent.sign, hs]

/-- Witness for C2 under a concrete correct scheme (`cryptoExact`,
`identityOne`): sign-then-verify succeeds on `[0, 1]`, flipping byte 0 to 5
gives `ContentHashMismatch`, and replacing the origin key by `[2]` gives
`InvalidSignature`. -/
theorem claim_C2_witness :
    SignedEvent.verify cryptoExact
        (SignedEvent.sign cryptoExact [0, 1] identityOne) = Except.ok ()
    ∧ SignedEvent.verify cryptoExact
        { SignedEvent.sign cryptoExact [0, 1] identityOne with
            event_bytes := [0, 1].set 0 5 } =
        Except.error SignedEventError.ContentHashMismatch
    ∧ SignedEvent.verify cryptoExact
        { SignedEvent.sign cryptoExact [0, 1] identityOne with
            origin_pubkey := [2], signature := [0, 1] } =
        Except.error SignedEventError.InvalidSignature := by
  have h := claim_C2_sign_verify cryptoExact identityOne [0, 1]
    (fun m => by simp [SchemeCorrect, cryptoExact, identityOne])
  exact ⟨h.1, h.2.2.1 0 5 (by decide), h.2.2.2 [2] [0, 1] (by decide)⟩

/-- C1: the `process_push` receiver pipeline classifies every event of the
batch in order — empty `event_bytes` is rejected as `MalformedEvent`; a
failed `verify()` is rejected as `ContentHashMismatch` or
`InvalidSignature` (via `sync_reason_of`); an origin key that is not a
registered non-Removed peer is rejected as `UnknownPeer`; a content id
already in the dedup cache counts as a duplicate with no state change;
otherwise the event is accepted, its content id is inserted into the dedup
cache, and the origin peer is touched (`last_seen_at := now`,
`status := Online`).  In particular pushing one valid event and one event
with a flipped byte from a registered sender yields `accepted = 1`,
`rejected = 1`, `duplicates = 0` with `errors[0].reason =
ContentHashMismatch`. -/
theorem claim_C1_push_pipeline :
    (∀ (C : CryptoModel) (fs : FedState) (e : SignedEvent) (now_us : Nat),
      (e.event_bytes = [] →
        process_push_event C fs e now_us =
          (fs, EventOutcome.rejected SyncRejectReason.MalformedEvent))
      ∧ (∀ err, e.event_bytes ≠ [] →
          SignedEvent.verify C e = Except.error err →
          process_push_event C fs e now_us =
            (fs, EventOutcome.rejected (sync_reason_of err)))
      ∧ (e.event_bytes ≠ [] → SignedEvent.verify C e = Except.ok () →
          fs.is_known_peer e.origin_pubkey = false →
          process_push_event C fs e now_us =
            (fs, EventOutcome.rejected SyncRejectReason.UnknownPeer))
      ∧ (e.event_bytes ≠ [] → SignedEvent.verify C e = Except.ok () →
          fs.is_known_peer e.origin_pubkey = true →
          fs.is_new_event e.content_id_hex = false →
          process_push_event C fs e now_us = (fs, EventOutcome.duplicate))
      ∧ (e.event_bytes ≠ [] → SignedEvent.verify C e = Except.ok () →
          fs.is_known_peer e.origin_pubkey = true →
          fs.is_new_event e.content_id_hex = true →
          (process_push_event C fs e now_us).2 = EventOutcome.accepted
          ∧ (process_push_event C fs e now_us).1.is_new_event
              e.content_id_hex = false
          ∧ (∀ p, alookup e.origin_pubkey_hex fs.peers = some p →
              alookup e.origin_pubkey_hex
                  (process_push_event C fs e now_us).1.peers =
                some { p with last_seen_at := now_us,
                              status := PeerStatus.Online })))
    ∧ (process_push cryptoId fedStateEx pushReqEx 0).2.accepted = 1
    ∧ (process_push cryptoId fedStateEx pushReqEx 0).2.rejected = 1
    ∧ (process_push cryptoId fedStateEx pushReqEx 0).2.duplicates = 0
    ∧ (process_push cryptoId fedStateEx pushReqEx 0).2.errors =
        [{ index := 1, content_id := eventFlipped.content_id_hex,
           reason := SyncRejectReason.ContentHashMismatch }] := by
  refine ⟨?_, by decide, by decide, by decide, by decide⟩
  intro C fs e now_us
  refine ⟨?_, ?_, ?_, ?_, ?_⟩
  · intro h
    simp [process_push_event, h]
  · intro err hne hv
    simp [process_push_event, hne, hv]
  · intro hne hv hk
    simp [process_push_event, hne, hv, hk]
  · intro hne hv hk hnew
    simp [process_push_event, hne, hv, hk, hnew]
  · intro hne hv hk hnew
    have hnew' : alookup e.content_id_hex fs.seen_events = none := by
      simpa [FedState.is_new_event, Option.isNone_iff_eq_none] using hnew
    refine ⟨?_, ?_, ?_⟩
    · simp [process_push_event, hne, hv, hk, hnew]
    · simp [process_push_event, hne, hv, hk, FedState.is_new_event, hnew',
        FedState.touch_peer, FedState.mark_event_seen, alookup_ainsert_self]
    · intro p hp
      simp [process_push_event, hne, hv, hk, FedState.is_new_event, hnew',
        FedState.touch_peer, FedState.mark_event_seen,
        alookup_amodify_self, hp]

/-- Witness for C1: the malformed-event clause applied to a concrete empty
event against the example federation state. -/
theorem claim_C1_witness :
    process_push_event cryptoId fedStateEx
        { event_bytes := [], origin_pubkey := [1], signature := [],
          content_id := [] } 0 =
      (fedStateEx, EventOutcome.rejected SyncRejectReason.MalformedEvent) :=
  (claim_C1_push_pipeline.1 cryptoId fedStateEx
    { event_bytes := [], origin_pubkey := [1], signature := [],
      content_id := [] } 0).1 rfl

/-- C5: `handle_registration` validates in order — a challenge signature
that does not hex-decode to exactly 64 bytes is rejected with
"invalid challenge signature format"; a signature that does not verify over
the nonce bytes under the requester's key is rejected with
"challenge signature verification failed"; when `max_peers > 0` and the
count of non-Removed peers has reached `max_peers` the request is rejected
with "peer limit reached (n/max)"; otherwise the peer is upserted with
`initiated_by_us = false` and `status = Online` and the response has
`accepted = true`. -/
theorem claim_C5_registration (C : CryptoModel) (fs : FedState)
    (req : PeerRegistrationRequest) (now_us : Nat) (fresh_nonce : String) :
    (hexDecode req.challenge_signature = none →
      FedState.handle_registration C fs req now_us fresh_nonce =
        (fs, fs.reject_registration "invalid challenge signature format"))
    ∧ (∀ bs, hexDecode req.challenge_signature = some bs → bs.length ≠ 64 →
        FedState.handle_registration C fs req now_us fresh_nonce =
          (fs, fs.reject_registration "invalid challenge signature format"))
    ∧ (∀ bs, hexDecode req.challenge_signature = some bs → bs.length = 64 →
        C.verify_signature req.public_key (strBytes req.challenge_nonce) bs = false →
        FedState.handle_registration C fs req now_us fresh_nonce =
          (fs, fs.reject_registration "challenge signature verification failed"))
    ∧ (∀ bs, hexDecode req.challenge_signature = some bs → bs.length = 64 →
        C.verify_signature req.public_key (strBytes req.challenge_nonce) bs = true →
        0 < fs.policy.max_peers → fs.policy.max_peers ≤ fs.active_peer_count →
        FedState.handle_registration C fs req now_us fresh_nonce =
          (fs, fs.reject_registration
            ("peer limit reached (" ++ toString fs.active_peer_count ++ "/" ++
              toString fs.policy.max_peers ++ ")")))
    ∧ (∀ bs, hexDecode req.challenge_signature = some bs → bs.length = 64 →
        C.verify_signature req.public_key (strBytes req.challenge_nonce) bs = true →
        ¬ (0 < fs.policy.max_peers ∧ fs.policy.max_peers ≤ fs.active_peer_count) →
        (FedState.handle_registration C fs req now_us fresh_nonce).2.accepted = true
        ∧ (FedState.handle_registration C fs req now_us fresh_nonce).2.reason = none
        ∧ alookup (hexEncode req.public_key)
            (FedState.handle_registration C fs req now_us fresh_nonce).1.peers =
          some { public_key := req.public_key
                 display_name := req.display_name
                 endpoint := req.endpoint
                 registered_at := now_us
                 last_seen_at := now_us
                 last_synced_seq := 0
                 initiated_by_us := false
                 status := PeerStatus.Online }) := by
  refine ⟨?_, ?_, ?_, ?_, ?_⟩
  · intro h
    simp [FedState.handle_registration, h]
  · intro bs hsome hlen
    simp [FedState.handle_registration, hsome, hlen]
  · intro bs hsome hlen hver
    simp [FedState.handle_registration, hsome, hlen, hver]
  · intro bs hsome hlen hver hmax hcnt
    have hcond : 0 < fs.policy.max_peers ∧
        fs.policy.max_peers ≤ fs.active_peer_count := ⟨hmax, hcnt⟩
    simp [FedState.handle_registration, hsome, hlen, hver, hcond]
  · intro bs hsome hlen hver hncond
    refine ⟨?_, ?_, ?_⟩
    · simp [FedState.handle_registration, hsome, hlen, hver, hncond]
    · simp [FedState.handle_registration, hsome, hlen, hver, hncond]
    · simp only [FedState.handle_registration, hsome, hlen, hver, hncond]
      simp [hncond, alookup_ainsert_self]

/-- Witness for C5: the acceptance branch applied to the example state (one
active peer, `max_peers = 10`) and the concrete valid request `regReqEx`. -/
theorem claim_C5_witness :
    (FedState.handle_registration cryptoId fedStateEx regReqEx 0 "n").2.accepted = true
    ∧ alookup (hexEncode [1])
        (FedState.handle_registration cryptoId fedStateEx regReqEx 0 "n").1.peers =
      some { public_key := [1]
             display_name := "sender"
             endpoint := "http://localhost:8081"
             registered_at := 0
             last_seen_at := 0
             last_synced_seq := 0
             initiated_by_us := false
             status := PeerStatus.Online } := by
  have h := (claim_C5_registration cryptoId fedStateEx regReqEx 0 "n").2.2.2.2
    (List.replicate 64 0) (by decide) (by decide) rfl (by decide)
  exact ⟨h.1, h.2.2⟩

theorem process_push_loop_spec (C : CryptoModel) (now_us : Nat) :
    ∀ (events : List SignedEvent) (i : Nat) (fs : FedState),
      (process_push_loop C now_us events i fs).2.accepted +
          (process_push_loop C now_us events i fs).2.duplicates +
          (process_push_loop C now_us events i fs).2.rejected = events.length
      ∧ (process_push_loop C now_us events i fs).2.errors.length =
          (process_push_loop C now_us events i fs).2.rejected
      ∧ (∀ err ∈ (process_push_loop C now_us events i fs).2.errors,
          ∃ j, ∃ hj : j < events.length, err.index = i + j ∧
            err.content_id = (events.get ⟨j, hj⟩).content_id_hex)
      ∧ List.Pairwise (fun x y => x < y)
          ((process_push_loop C now_us events i fs).2.errors.map SyncError.index) := by
  intro events
  induction events with
  | nil =>
    intro i fs
    simp [process_push_loop]
  | cons e rest ih =>
    intro i fs
    rcases hstep : process_push_event C fs e now_us with ⟨fs1, out⟩
    have IH := ih (i + 1) fs1
    rcases hloop : process_push_loop C now_us rest (i + 1) fs1 with ⟨fsF, c⟩
    rw [hloop] at IH
    dsimp only at IH
    obtain ⟨IH1, IH2, IH3, IH4⟩ := IH
    cases out with
    | accepted =>
      simp only [process_push_loop, hstep, hloop, List.length_cons]
      refine ⟨by omega, IH2, ?_, IH4⟩
      intro err hmem
      obtain ⟨j, hj, hidx, hcid⟩ := IH3 err hmem
      exact ⟨j + 1, Nat.succ_lt_succ hj, by omega, hcid⟩
    | duplicate =>
      simp only [process_push_loop, hstep, hloop, List.length_cons]
      refine ⟨by omega, IH2, ?_, IH4⟩
      intro err hmem
      obtain ⟨j, hj, hidx, hcid⟩ := IH3 err hmem
      exact ⟨j + 1, Nat.succ_lt_succ hj, by omega, hcid⟩
    | rejected r =>
      simp only [process_push_loop, hstep, hloop, List.length_cons,
        List.length_cons, List.map_cons]
      refine ⟨by omega, by simp [IH2], ?_, ?_⟩
      · intro err hmem
        rcases List.mem_cons.mp hmem with hhead | htail
        · subst hhead
          exact ⟨0, Nat.succ_pos _, by simp, rfl⟩
        · obtain ⟨j, hj, hidx, hcid⟩ := IH3 err htail
          exact ⟨j + 1, Nat.succ_lt_succ hj, by omega, hcid⟩
      · rw [List.pairwise_cons]
        refine ⟨?_, IH4⟩
        intro x hx
        obtain ⟨err, herr, hex⟩ := List.mem_map.mp hx
        obtain ⟨j, hj, hidx, _⟩ := IH3 err herr
        subst hex
        omega

/-- C10: for every push request, the response of `process_push` satisfies
`accepted + duplicates + rejected = events.len()`, and the errors list has
exactly one entry per rejected event, each carrying that event's position in
the batch and its content id in hex, with entries in ascending index
order. -/
theorem claim_C10_response_invariants (C : CryptoModel) (fs : FedState)
    (req : EventPushRequest) (now_us : Nat) :
    (process_push C fs req now_us).2.accepted +
        (process_push C fs req now_us).2.duplicates +
        (process_push C fs req now_us).2.rejected = req.events.length
    ∧ (process_push C fs req now_us).2.errors.length =
        (process_push C fs req now_us).2.rejected
    ∧ List.Pairwise (fun x y => x < y)
        ((process_push C fs req now_us).2.errors.map SyncError.index)
    ∧ ∀ err ∈ (process_push C fs req now_us).2.errors,
        ∃ h : err.index < req.events.length,
          err.content_id = (req.events.get ⟨err.index, h⟩).content_id_hex := by
  have hspec := process_push_loop_spec C now_us req.events 0
    { fs with clock := (HybridClock.receiveStep fs.clock req.sender_hlc now_us).1 }
  rcases hloop : process_push_loop C now_us req.events 0
    { fs with clock := (HybridClock.receiveStep fs.clock req.sender_hlc now_us).1 }
    with ⟨fs1, c⟩
  rw [hloop] at hspec
  obtain ⟨h1, h2, h3, h4⟩ := hspec
  simp only [process_push, hloop]
  refine ⟨h1, h2, h4, ?_⟩
  intro err hmem
  obtain ⟨j, hj, hidx, hcid⟩ := h3 err hmem
  have hij : err.index = j := by omega
  subst hij
  exact ⟨hj, hcid⟩

/-- Witness for C10 on the concrete two-event batch: the counts sum to the
batch length and the single error entry names index 1 with the flipped
event's content id. -/
theorem claim_C10_witness :
    (process_push cryptoId fedStateEx pushReqEx 0).2.accepted +
        (process_push cryptoId fedStateEx pushReqEx 0).2.duplicates +
        (process_push cryptoId fedStateEx pushReqEx 0).2.rejected =
      pushReqEx.events.length :=
  (claim_C10_response_invariants cryptoId fedStateEx pushReqEx 0).1

/-- C6 (amended): once `remove_peer` transitions a peer's record to
`Removed`, the tombstone record is retained and, for as long as it remains
`Removed`, `is_known_peer` returns false for that key, `list_peers` excludes
it, and push and pull fan-out skip it.  (The original claim's further
assertion that the key is never re-registered as an active peer fails on the
code: see the counterexample, where a subsequent `handle_registration`
upserts the same key back to `Online`.) -/
theorem claim_C6_tombstone (fs : FedState) (pk : List Nat) (p : PeerInfo)
    (hnd : NodupKeys fs.peers)
    (hwk : ∀ q ∈ fs.peers, q.1 = hexEncode q.2.public_key)
    (hp : alookup (hexEncode pk) fs.peers = some p) :
    alookup (hexEncode pk) ((fs.remove_peer (hexEncode pk)).1).peers =
      some { p with status := PeerStatus.Removed }
    ∧ ((fs.remove_peer (hexEncode pk)).1).is_known_peer pk = false
    ∧ (∀ q ∈ ((fs.remove_peer (hexEncode pk)).1).list_peers,
        hexEncode q.public_key ≠ hexEncode pk)
    ∧ (∀ q ∈ push_fanout_targets (fs.remove_peer (hexEncode pk)).1,
        hexEncode q.public_key ≠ hexEncode pk)
    ∧ (∀ q ∈ pull_fanout_targets (fs.remove_peer (hexEncode pk)).1,
        hexEncode q.public_key ≠ hexEncode pk) := by
  have hremove : ((fs.remove_peer (hexEncode pk)).1).peers =
      amodify fs.peers (hexEncode pk) (fun q => { q with status := PeerStatus.Removed }) := by
    simp [FedState.remove_peer, hp]
  have h1 : alookup (hexEncode pk) ((fs.remove_peer (hexEncode pk)).1).peers =
      some { p with status := PeerStatus.Removed } := by
    rw [hremove, alookup_amodify_self, hp]
    rfl
  have hnd' : NodupKeys ((fs.remove_peer (hexEncode pk)).1).peers := by
    unfold NodupKeys
    rw [hremove, akeys_amodify]
    exact hnd
  have hwk' : ∀ q ∈ ((fs.remove_peer (hexEncode pk)).1).peers,
      q.1 = hexEncode q.2.public_key := by
    rw [hremove]
    intro q hq
    simp only [amodify] at hq
    obtain ⟨orig, ho, heq2⟩ := List.mem_map.mp hq
    by_cases hc : orig.1 = hexEncode pk
    · rw [← heq2]
      simp only [if_pos hc]
      exact hwk orig ho
    · rw [← heq2]
      simp only [if_neg hc]
      exact hwk orig ho
  have hlist : ∀ q ∈ ((fs.remove_peer (hexEncode pk)).1).list_peers,
      hexEncode q.public_key ≠ hexEncode pk := by
    intro q hq heq
    simp only [FedState.list_peers] at hq
    obtain ⟨hqmem, hqpred⟩ := List.mem_filter.mp hq
    obtain ⟨entry, hentry, hesnd⟩ := List.mem_map.mp hqmem
    have hqk : entry.1 = hexEncode pk := by
      rw [hwk' entry hentry, hesnd, heq]
    have hlook : alookup entry.1
        ((fs.remove_peer (hexEncode pk)).1).peers = some entry.2 := by
      apply mem_alookup_of_nodup hnd'
      rw [Prod.mk.eta]
      exact hentry
    rw [hqk, h1] at hlook
    have he2 : entry.2 = { p with status := PeerStatus.Removed } :=
      (Option.some.inj hlook).symm
    have hqs : q.status = PeerStatus.Removed := by
      rw [← hesnd, he2]
    rw [hqs] at hqpred
    simp at hqpred
  refine ⟨h1, ?_, hlist, ?_, ?_⟩
  · simp [FedState.is_known_peer, h1]
  · intro q hq
    exact hlist q (List.mem_filter.mp hq).1
  · intro q hq
    exact hlist q (List.mem_filter.mp hq).1

/-- C6 counterexample: the claim's "the removed key is not reused for a new
peer (no subsequent operation re-registers that key as an active peer)"
fails on the code.  Starting from the example state, removing peer `[1]` and
then handling a valid registration request for the same key yields
`accepted = true` and makes `is_known_peer [1]` true again — the tombstone
is overwritten. -/
theorem claim_C6_counterexample :
    ((fedStateEx.remove_peer (hexEncode [1])).1.is_known_peer [1]) = false
    ∧ (FedState.handle_registration cryptoId
        (fedStateEx.remove_peer (hexEncode [1])).1 regReqEx 0 "n").2.accepted = true
    ∧ ((FedState.handle_registration cryptoId
        (fedStateEx.remove_peer (hexEncode [1])).1 regReqEx 0 "n").1.is_known_peer [1])
      = true := by
  refine ⟨by decide, by decide, by decide⟩

/-- Witness for C6 (amended) on the example state with its registered peer
`[1]`. -/
theorem claim_C6_witness :
    ((fedStateEx.remove_peer (hexEncode [1])).1.is_known_peer [1]) = false
    ∧ alookup (hexEncode [1])
        ((fedStateEx.remove_peer (hexEncode [1])).1).peers =
      some { peerOne with status := PeerStatus.Removed } := by
  have h := claim_C6_tombstone fedStateEx [1] peerOne
    (by unfold NodupKeys; decide) (by decide) (by decide)
  exact ⟨h.2.1, h.1⟩

theorem mem_drop_append_last (a : Nat) :
    ∀ (xs : List Nat) (k : Nat), k ≤ xs.length → a ∈ (xs ++ [a]).drop k := by
  intro xs
  induction xs with
  | nil =>
    intro k hk
    have : k = 0 := Nat.le_zero.mp hk
    subst this
    simp
  | cons x rest ih =>
    intro k hk
    cases k with
    | zero => simp
    | succ j =>
      rw [List.cons_append, List.drop_succ_cons]
      exact ih j (Nat.le_of_succ_le_succ hk)

/-- C7 (amended): `process_incoming` deduplicates while the message id is
still in the seen set: presenting an envelope a second time immediately after
the first returns `AlreadySeen` and leaves the whole state — in particular
the vector clock — exactly as after the first call; a first presentation
returns `Process` with `should_forward` true exactly when the envelope's
layer is `Federated` and its `ttl` is positive.  (The original claim's
unconditional "any second presentation returns `AlreadySeen`" fails on the
code: the seen-set eviction that fires when the set exceeds
`max_seen_messages` can drop the id in between; see the counterexample.) -/
theorem claim_C7_process_incoming (s : SyncManagerState) (msg : MessageEnvelope) :
    ((s.process_incoming msg).1.process_incoming msg =
      ((s.process_incoming msg).1, SyncDecision.AlreadySeen))
    ∧ (msg.id ∉ s.seen_messages →
        ∃ b, (s.process_incoming msg).2 = SyncDecision.Process b
          ∧ (b = true ↔ (msg.layer = DataLayer.Federated ∧ 0 < msg.ttl))) := by
  have key : ∀ (t : SyncManagerState), msg.id ∈ t.seen_messages →
      t.process_incoming msg = (t, SyncDecision.AlreadySeen) := by
    intro t ht
    simp [SyncManagerState.process_incoming, ht]
  constructor
  · by_cases hmem : msg.id ∈ s.seen_messages
    · rw [key s hmem]
      exact key s hmem
    · have hstate : (s.process_incoming msg).1.seen_messages =
          (if s.max_seen_messages < (s.seen_messages ++ [msg.id]).length then
            (s.seen_messages ++ [msg.id]).drop
              ((s.seen_messages ++ [msg.id]).length / 2)
          else s.seen_messages ++ [msg.id]) := by
        simp [SyncManagerState.process_incoming, hmem,
          SyncManagerState.merge_clock]
      have hin : msg.id ∈ (s.process_incoming msg).1.seen_messages := by
        rw [hstate]
        by_cases hev : s.max_seen_messages < (s.seen_messages ++ [msg.id]).length
        · rw [if_pos hev]
          apply mem_drop_append_last
          simp only [List.length_append, List.length_cons, List.length_nil]
          omega
        · rw [if_neg hev]
          simp
      exact key _ hin
  · intro hmem
    refine ⟨decide (msg.layer = DataLayer.Federated) && decide (0 < msg.ttl),
      by simp [SyncManagerState.process_incoming, hmem], ?_⟩
    simp

/-- C7 counterexample: with `max_seen_messages = 1`, presenting envelope
`msgA`, then `msgB` (which triggers eviction of the first half of the seen
set, dropping `msgA.id`), then `msgA` again makes the second presentation of
`msgA` return `Process`, not `AlreadySeen`. -/
theorem claim_C7_counterexample :
    ((((syncStateEx.process_incoming msgA).1.process_incoming msgB).1.process_incoming
        msgA).2) ≠ SyncDecision.AlreadySeen := by
  decide

/-- Witness for C7 (amended): immediate re-presentation of `msgA` to the
example sync manager returns `AlreadySeen` with the state untouched, and the
first presentation forwards (Federated layer, positive ttl). -/
theorem claim_C7_witness :
    ((syncStateEx.process_incoming msgA).1.process_incoming msgA =
      ((syncStateEx.process_incoming msgA).1, SyncDecision.AlreadySeen))
    ∧ ∃ b, (syncStateEx.process_incoming msgA).2 = SyncDecision.Process b
        ∧ (b = true ↔ (msgA.layer = DataLayer.Federated ∧ 0 < msgA.ttl)) :=
  ⟨(claim_C7_process_incoming syncStateEx msgA).1,
    (claim_C7_process_incoming syncStateEx msgA).2 (by decide)⟩

/-- C8: `happened_before(a, b)` is true iff, reading absent entries as 0,
every component of `a` is at most the corresponding component of `b` and
some component is strictly smaller; consequently it is antisymmetric.
Both clocks carry the `HashMap` no-duplicate-keys invariant. -/
theorem claim_C8_happened_before (a b : VectorClock)
    (ha : NodupKeys a.clocks) (hb : NodupKeys b.clocks) :
    (a.happened_before b = true ↔
      (∀ k, a.get k ≤ b.get k) ∧ (∃ k, a.get k < b.get k))
    ∧ (a.happened_before b = true → b.happened_before a = false ∧ a ≠ b) := by
  have main : ∀ (x y : VectorClock), NodupKeys x.clocks → NodupKeys y.clocks →
      (x.happened_before y = true ↔
        (∀ k, x.get k ≤ y.get k) ∧ (∃ k, x.get k < y.get k)) := by
    intro x y hx hy
    unfold VectorClock.happened_before
    rw [Bool.and_eq_true, Bool.or_eq_true, List.all_eq_true, List.any_eq_true,
      List.any_eq_true]
    constructor
    · rintro ⟨hall, hdom⟩
      constructor
      · intro k
        cases hlk : alookup k x.clocks with
        | none =>
          have h0 : x.get k = 0 := by simp [VectorClock.get, hlk]
          rw [h0]
          exact Nat.zero_le _
        | some v =>
          have hmem : (k, v) ∈ x.clocks := alookup_some_mem hlk
          have hv : x.get k = v := by simp [VectorClock.get, hlk]
          rw [hv]
          simpa using hall (k, v) hmem
      · rcases hdom with h1 | h2
        · obtain ⟨p, hp, hlt⟩ := h1
          refine ⟨p.1, ?_⟩
          have hlp : alookup p.1 x.clocks = some p.2 :=
            mem_alookup_of_nodup hx (by rw [Prod.mk.eta]; exact hp)
          have hv : x.get p.1 = p.2 := by simp [VectorClock.get, hlp]
          rw [hv]
          simpa using hlt
        · obtain ⟨p, hp, hcond⟩ := h2
          rw [Bool.and_eq_true] at hcond
          obtain ⟨hnone, hpos⟩ := hcond
          refine ⟨p.1, ?_⟩
          have h0 : alookup p.1 x.clocks = none := by
            cases h : alookup p.1 x.clocks with
            | none => rfl
            | some w => rw [h] at hnone; simp at hnone
          have hx0 : x.get p.1 = 0 := by simp [VectorClock.get, h0]
          have hlp : alookup p.1 y.clocks = some p.2 :=
            mem_alookup_of_nodup hy (by rw [Prod.mk.eta]; exact hp)
          have hy2 : y.get p.1 = p.2 := by simp [VectorClock.get, hlp]
          rw [hx0, hy2]
          simpa using hpos
    · rintro ⟨hle, k0, hlt⟩
      constructor
      · intro p hp
        have hlp : alookup p.1 x.clocks = some p.2 :=
          mem_alookup_of_nodup hx (by rw [Prod.mk.eta]; exact hp)
        have hv : x.get p.1 = p.2 := by simp [VectorClock.get, hlp]
        have hk := hle p.1
        rw [hv] at hk
        simpa using hk
      · cases hlk : alookup k0 x.clocks with
        | some v =>
          left
          have hmem : (k0, v) ∈ x.clocks := alookup_some_mem hlk
          refine ⟨(k0, v), hmem, ?_⟩
          have hv : x.get k0 = v := by simp [VectorClock.get, hlk]
          rw [hv] at hlt
          simpa using hlt
        | none =>
          right
          have hx0 : x.get k0 = 0 := by simp [VectorClock.get, hlk]
          rw [hx0] at hlt
          cases hyk : alookup k0 y.clocks with
          | none =>
            exfalso
            simp [VectorClock.get, hyk] at hlt
          | some w =>
            have hmem : (k0, w) ∈ y.clocks := alookup_some_mem hyk
            refine ⟨(k0, w), hmem, ?_⟩
            rw [Bool.and_eq_true]
            refine ⟨by simp [hlk], ?_⟩
            have hyw : y.get k0 = w := by simp [VectorClock.get, hyk]
            rw [hyw] at hlt
            simpa using hlt
  refine ⟨main a b ha hb, ?_⟩
  intro hab
  obtain ⟨hle, k0, hlt⟩ := (main a b ha hb).mp hab
  constructor
  · cases hba : b.happened_before a with
    | false => rfl
    | true =>
      obtain ⟨hle', _⟩ := (main b a hb ha).mp hba
      exact absurd (Nat.lt_of_lt_of_le hlt (hle' k0)) (Nat.lt_irrefl _)
  · intro he
    rw [he] at hlt
    exact Nat.lt_irrefl _ hlt

/-- Witness for C8 on the one-entry clocks `{1 ↦ 1}` and `{1 ↦ 2}`:
antisymmetry at a concrete happens-before pair. -/
theorem claim_C8_witness :
    VectorClock.happened_before ⟨[(1, 2)]⟩ ⟨[(1, 1)]⟩ = false
    ∧ (⟨[(1, 1)]⟩ : VectorClock) ≠ ⟨[(1, 2)]⟩ :=
  (claim_C8_happened_before ⟨[(1, 1)]⟩ ⟨[(1, 2)]⟩
    (by unfold NodupKeys; decide) (by unfold NodupKeys; decide)).2 (by decide)

theorem combineOpt_none_right (o : Option Nat) : combineOpt o none = o := by
  cases o <;> rfl

theorem combineOpt_self (o : Option Nat) : combineOpt o o = o := by
  cases o <;> simp [combineOpt, Nat.max_self]

theorem combineOpt_comm (o₁ o₂ : Option Nat) :
    combineOpt o₁ o₂ = combineOpt o₂ o₁ := by
  cases o₁ <;> cases o₂ <;> simp [combineOpt, Nat.max_comm]

theorem combineOpt_assoc (o₁ o₂ o₃ : Option Nat) :
    combineOpt (combineOpt o₁ o₂) o₃ = combineOpt o₁ (combineOpt o₂ o₃) := by
  cases o₁ <;> cases o₂ <;> cases o₃ <;> simp [combineOpt, Nat.max_assoc]

theorem alookup_upsertMax_self (l : List (Nat × Nat)) (k v : Nat) :
    alookup k (upsertMax l k v) = combineOpt (alookup k l) (some v) := by
  unfold upsertMax
  by_cases h : (alookup k l).isSome
  · rw [if_pos h]
    have hform : (l.map fun p => if p.1 = k then (p.1, max p.2 v) else p) =
        amodify l k (fun t => max t v) := rfl
    rw [hform, alookup_amodify_self]
    cases hl : alookup k l with
    | none => rw [hl] at h; simp at h
    | some x => simp [combineOpt]
  · rw [if_neg h,
      alookup_append_single_self l k v (alookup_not_isSome_eq_none h),
      alookup_not_isSome_eq_none h]
    rfl

theorem alookup_upsertMax_ne (l : List (Nat × Nat)) (k k' v : Nat)
    (h : k' ≠ k) : alookup k' (upsertMax l k v) = alookup k' l := by
  unfold upsertMax
  by_cases hs : (alookup k l).isSome
  · rw [if_pos hs]
    have hform : (l.map fun p => if p.1 = k then (p.1, max p.2 v) else p) =
        amodify l k (fun t => max t v) := rfl
    rw [hform]
    exact alookup_amodify_ne l k k' (fun t => max t v) h
  · rw [if_neg hs]
    exact alookup_append_single_ne l k k' v h

theorem nodupKeys_upsertMax (l : List (Nat × Nat)) (k v : Nat)
    (h : NodupKeys l) : NodupKeys (upsertMax l k v) := by
  unfold upsertMax
  by_cases hs : (alookup k l).isSome
  · rw [if_pos hs]
    have hform : (l.map fun p => if p.1 = k then (p.1, max p.2 v) else p) =
        amodify l k (fun t => max t v) := rfl
    rw [hform]
    unfold NodupKeys
    rw [akeys_amodify]
    exact h
  · rw [if_neg hs]
    have hk : k ∉ akeys l :=
      (alookup_eq_none_iff k l).mp (alookup_not_isSome_eq_none hs)
    unfold NodupKeys akeys at h ⊢
    rw [List.map_append]
    apply List.Nodup.append h (List.nodup_singleton k)
    intro x hx hx2
    simp at hx2
    subst hx2
    exact hk (by simpa [akeys] using hx)

theorem foldl_upsertMax_nodup (entries : List (Nat × Nat)) :
    ∀ init, NodupKeys init →
      NodupKeys (entries.foldl (fun acc p => upsertMax acc p.1 p.2) init) := by
  induction entries with
  | nil =>
    intro init h
    simpa using h
  | cons p rest ih =>
    intro init h
    rw [List.foldl_cons]
    exact ih _ (nodupKeys_upsertMax _ _ _ h)

theorem foldl_upsertMax_alookup (entries : List (Nat × Nat)) :
    ∀ (init : List (Nat × Nat)) (k : Nat), NodupKeys entries →
      alookup k (entries.foldl (fun acc p => upsertMax acc p.1 p.2) init) =
        combineOpt (alookup k init) (alookup k entries) := by
  induction entries with
  | nil =>
    intro init k _
    simp [alookup, combineOpt_none_right]
  | cons p rest ih =>
    intro init k hnd
    have hnd1 : p.1 ∉ akeys rest ∧ NodupKeys rest := by
      simpa [NodupKeys, akeys] using hnd
    rw [List.foldl_cons, ih (upsertMax init p.1 p.2) k hnd1.2]
    by_cases hk : k = p.1
    · subst hk
      have hrest : alookup p.1 rest = none :=
        (alookup_eq_none_iff p.1 rest).mpr hnd1.1
      rw [hrest, combineOpt_none_right, alookup_upsertMax_self]
      have hhead : alookup p.1 (p :: rest) = some p.2 := by simp [alookup]
      rw [hhead]
    · rw [alookup_upsertMax_ne init p.1 k p.2 hk]
      have hhead : alookup k (p :: rest) = alookup k rest := by
        have hne : ¬ p.1 = k := fun he => hk he.symm
        simp [alookup, hne]
      rw [hhead]

theorem merge_alookup (a b : VectorClock) (hb : NodupKeys b.clocks) (k : Nat) :
    alookup k (a.merge b).clocks =
      combineOpt (alookup k a.clocks) (alookup k b.clocks) :=
  foldl_upsertMax_alookup b.clocks a.clocks k hb

theorem merge_nodupKeys (a b : VectorClock) (ha : NodupKeys a.clocks) :
    NodupKeys (a.merge b).clocks :=
  foldl_upsertMax_nodup b.clocks a.clocks ha

/-- C9: `VectorClock::merge` (componentwise maximum) is idempotent,
commutative and associative up to `HashMap` equality (`EquivMap`, i.e.
equal lookups at every key), under the `HashMap` no-duplicate-keys
invariant; hence the merge of any collection of clocks is independent of
the order in which the merges are performed. -/
theorem claim_C9_merge_laws (a b c : VectorClock)
    (ha : NodupKeys a.clocks) (hb : NodupKeys b.clocks)
    (hc : NodupKeys c.clocks) :
    VectorClock.EquivMap (a.merge a) a
    ∧ VectorClock.EquivMap (a.merge b) (b.merge a)
    ∧ VectorClock.EquivMap ((a.merge b).merge c) (a.merge (b.merge c)) := by
  refine ⟨?_, ?_, ?_⟩
  · intro k
    rw [merge_alookup a a ha k, combineOpt_self]
  · intro k
    rw [merge_alookup a b hb k, merge_alookup b a ha k, combineOpt_comm]
  · intro k
    rw [merge_alookup (a.merge b) c hc k, merge_alookup a b hb k,
      merge_alookup a (b.merge c) (merge_nodupKeys b c hb) k,
      merge_alookup b c hc k, combineOpt_assoc]

/-- Witness for C9 on concrete two-entry clocks. -/
theorem claim_C9_witness :
    VectorClock.EquivMap
        ((⟨[(1, 2), (3, 1)]⟩ : VectorClock).merge ⟨[(1, 2), (3, 1)]⟩)
        ⟨[(1, 2), (3, 1)]⟩
    ∧ VectorClock.EquivMap
        ((⟨[(1, 2), (3, 1)]⟩ : VectorClock).merge ⟨[(1, 5)]⟩)
        ((⟨[(1, 5)]⟩ : VectorClock).merge ⟨[(1, 2), (3, 1)]⟩) :=
  ⟨(claim_C9_merge_laws ⟨[(1, 2), (3, 1)]⟩ ⟨[(1, 5)]⟩ ⟨[(1, 5)]⟩
      (by unfold NodupKeys; decide) (by unfold NodupKeys; decide)
      (by unfold NodupKeys; decide)).1,
    (claim_C9_merge_laws ⟨[(1, 2), (3, 1)]⟩ ⟨[(1, 5)]⟩ ⟨[(1, 5)]⟩
      (by unfold NodupKeys; decide) (by unfold NodupKeys; decide)
      (by unfold NodupKeys; decide)).2.1⟩
